import Mathlib

/-!
# Base quantity check: the core check of `Basequantitycheck.js`

A shallow embedding of `checkBaseQuantitiesDynamic` (lines 106-177 of
`src/Basequantitycheck.js`) together with the host interface `desiteAPI` it
talks to, followed by theorems about the element filter, the key fallback, the
classification, the grouping and the calls issued to the host.

Modelling conventions.

* JavaScript strings are Lean `String`s (sequences of Unicode scalar values).
* `String.prototype.toLowerCase` is a library function of the JavaScript
  engine; it is a parameter `toLowerCase : String → String` of every
  definition that uses it.
* A JavaScript number is `NaN`, `±Infinity` or a finite dyadic `m * 2 ^ e`;
  the program only ever compares numbers with `0`.
* The functions are `async` and `await` every host call in program order; one
  run is modelled as the sequence of its host calls.
-/

namespace BaseQuantityCheck

/-! ## JavaScript values -/

/-- A JavaScript number: `NaN`, `+Infinity`, `-Infinity`, or the finite value
`mantissa * 2 ^ exponent`. The two zeros `+0` and `-0` are both `finite 0 e`:
JavaScript has `-0 === 0` and not `-0 < 0`, and the program applies no other
operation to a number. -/
inductive JSNumber where
  | nan
  | posInf
  | negInf
  | finite (mantissa : Int) (exponent : Int)
  deriving DecidableEq, Repr

/-- The values `desiteAPI.getPropertyValue(_, _, "xs:double")` can produce:
`undefined`, `null` or a number. -/
inductive JSValue where
  | undefined
  | null
  | number (n : JSNumber)
  deriving DecidableEq, Repr

/-- The test `n === 0` on a number. -/
def JSNumber.isZero : JSNumber → Bool
  | .finite m _ => decide (m = 0)
  | _ => false

/-- The test `n < 0` on a number (`NaN < 0` is false). -/
def JSNumber.isNegative : JSNumber → Bool
  | .negInf => true
  | .finite m _ => decide (m < 0)
  | _ => false

/-- The test `0 < n` on a number; not used by the program, it states what a
positive number is. -/
def JSNumber.isPositive : JSNumber → Bool
  | .posInf => true
  | .finite m _ => decide (0 < m)
  | _ => false

/-- The expression `value === 0`: strict equality, no coercion. -/
def JSValue.strictEqZero : JSValue → Bool
  | .number n => n.isZero
  | _ => false

/-- The expression `value < 0`: `undefined` converts to `NaN` and `null` to
`0`, so both compare false. -/
def JSValue.ltZero : JSValue → Bool
  | .number n => n.isNegative
  | _ => false

/-- The expression `value !== null && value !== undefined` of line 143. -/
def JSValue.isDefined : JSValue → Bool
  | .undefined => false
  | .null => false
  | .number _ => true

/-! ## Strings -/

/-- The method `hay.includes(needle)` on the characters of two strings: true
when `needle` occurs in `hay` at some position. -/
def includesChars : List Char → List Char → Bool
  | [], needle => needle.isEmpty
  | c :: cs, needle => needle.isPrefixOf (c :: cs) || includesChars cs needle

/-- The method `hay.includes(needle)`. -/
def includes (hay needle : String) : Bool :=
  includesChars hay.data needle.data

/-- The method `ids.join(sep)` on an array of strings. -/
def join (ids : List String) (sep : String) : String :=
  sep.intercalate ids

/-! ## Catalog and host interface -/

/-- One entry of a category of `Basequantities.json`: the alternative property
keys and the display name (`prop.keys`, `prop.displayName`). -/
structure QuantitySpec where
  keys : List String
  displayName : String
  deriving DecidableEq, Repr

/-- The read side of the host object `desiteAPI`, over element handles `ε`.
`getPropertyValue` is split by its type argument: `getString e name` is
`getPropertyValue(e, name, "xs:string")` (`none` for `null`/`undefined`) and
`getDouble e name` is `getPropertyValue(e, name, "xs:double")`. -/
structure DesiteAPI (ε : Type) where
  getAllElements : String → List ε
  getString : ε → String → Option String
  getDouble : ε → String → JSValue
  idListToStr : ε → String

/-- One call to `desiteAPI`, with its arguments. -/
inductive Call (ε : Type) where
  | getAllElements (domain : String)
  | getPropertyValue (element : ε) (name : String) (type : String)
  | showElementsOnly (elements : List ε)
  | idListToStr (element : ε)
  | createSelectionSet (name : String)
  | addToSelectionSetGeometry (selSet : Nat) (ids : String)
  deriving DecidableEq, Repr

/-- A selection set of the host: its name and the `;`-joined identifier
strings added to it, in the order of the `addToSelectionSetGeometry` calls. -/
structure SelectionSet where
  name : String
  geometry : List String
  deriving DecidableEq, Repr

/-- The write side of the host: the selection sets created so far, oldest
first. -/
abbrev HostState := List SelectionSet

/-- The host's `createSelectionSet(name)`: a new empty set is appended and its
position is the handle returned. -/
def HostState.createSelectionSet (host : HostState) (name : String) : Nat × HostState :=
  (host.length, host ++ [{ name := name, geometry := [] }])

/-- The host's `addToSelectionSetGeometry(selSet, ids)`: the set with that
handle receives `ids`. -/
def HostState.addToSelectionSetGeometry (host : HostState) (selSet : Nat) (ids : String) :
    HostState :=
  host.modify (fun s => { s with geometry := s.geometry ++ [ids] }) selSet

/-! ## Discovery (lines 107-123) -/

/-- Lines 116-117: `type ? type.toLowerCase() : ""`. An absent value and the
empty string are falsy. -/
def lowerOrEmpty (toLowerCase : String → String) (type : Option String) : String :=
  match type with
  | some s => if s = "" then "" else toLowerCase s
  | none => ""

/-- The condition of line 120 for one element, from the two values fetched at
lines 112-113. -/
def matchesPartial {ε : Type} (toLowerCase : String → String) (api : DesiteAPI ε)
    (ifcPartial : String) (element : ε) : Bool :=
  let type := api.getString element "ifcType"
  let typeObject := api.getString element "ifcTypeObject"
  let typeLower := lowerOrEmpty toLowerCase type
  let typeObjectLower := lowerOrEmpty toLowerCase typeObject
  includes typeLower (toLowerCase ifcPartial) || includes typeObjectLower (toLowerCase ifcPartial)

/-- The body of the loop of lines 110-123: two property reads, then the push
onto `filteredElements` when the element matches. The state is
`(filteredElements, calls so far)`. -/
def discoverStep {ε : Type} (toLowerCase : String → String) (api : DesiteAPI ε)
    (ifcPartial : String) (st : List ε × List (Call ε)) (element : ε) : List ε × List (Call ε) :=
  let calls := st.2 ++ [Call.getPropertyValue element "ifcType" "xs:string",
    Call.getPropertyValue element "ifcTypeObject" "xs:string"]
  if matchesPartial toLowerCase api ifcPartial element then (st.1 ++ [element], calls)
  else (st.1, calls)

/-- Lines 107-123: `getAllElements("geometry")` and the filtering loop. The
result is `(filteredElements, calls)`. -/
def discover {ε : Type} (toLowerCase : String → String) (api : DesiteAPI ε)
    (ifcPartial : String) : List ε × List (Call ε) :=
  (api.getAllElements "geometry").foldl (discoverStep toLowerCase api ifcPartial)
    ([], [Call.getAllElements "geometry"])

/-! ## Evaluation (lines 131-160) -/

/-- The loop of lines 141-144 over the remaining keys, started with the current
content of `value`: each key is queried, and the loop breaks at the first
defined value. The result is the final `value` and the calls issued. -/
def probeKeys {ε : Type} (api : DesiteAPI ε) (element : ε) :
    List String → JSValue → JSValue × List (Call ε)
  | [], value => (value, [])
  | key :: rest, _ =>
    let value := api.getDouble element key
    if value.isDefined then (value, [Call.getPropertyValue element key "xs:double"])
    else
      let r := probeKeys api element rest value
      (r.1, Call.getPropertyValue element key "xs:double" :: r.2)

/-- Lines 139-146: `let value;`, the key loop, and the normalisation of `null`
to `undefined`. -/
def resolveValue {ε : Type} (api : DesiteAPI ε) (element : ε) (keys : List String) :
    JSValue × List (Call ε) :=
  let r := probeKeys api element keys JSValue.undefined
  (if r.1 = JSValue.null ∨ r.1 = JSValue.undefined then JSValue.undefined else r.1, r.2)

/-- Lines 148-151: the status, `none` for `null`. -/
def statusOf (value : JSValue) : Option String :=
  if value.strictEqZero then some "zero"
  else if value.ltZero then some "negative"
  else if value = JSValue.undefined then some "undefined"
  else none

/-- Line 154: the template literal that names a selection set. -/
def setNameOf (ifcPartial status displayName : String) : String :=
  ifcPartial ++ " with " ++ status ++ " " ++ displayName

/-- The object `elementIdsBySet`: its own properties in insertion order. Every
key written by the program contains `" with "`, so it is neither an array index
(which `Object.entries` would list first) nor a property inherited from
`Object.prototype`. -/
abbrev IdsBySet := List (String × List String)

/-- The read `elementIdsBySet[setName]`, `none` for `undefined`. -/
def IdsBySet.get (obj : IdsBySet) (setName : String) : Option (List String) :=
  match obj with
  | [] => none
  | (k, ids) :: rest => if k = setName then some ids else IdsBySet.get rest setName

/-- The assignment `elementIdsBySet[setName] = ids`: an existing property keeps
its position, a new one is added last. -/
def IdsBySet.set (obj : IdsBySet) (setName : String) (ids : List String) : IdsBySet :=
  match obj with
  | [] => [(setName, ids)]
  | (k, old) :: rest =>
    if k = setName then (k, ids) :: rest else (k, old) :: IdsBySet.set rest setName ids

/-- Lines 155-156: create the array on first use, then push `id` onto it. An
array is truthy even when empty, so the array is created only when the
property is missing. -/
def IdsBySet.push (obj : IdsBySet) (setName id : String) : IdsBySet :=
  let obj1 := if (obj.get setName).isNone then obj.set setName [] else obj
  match obj1.get setName with
  | some ids => obj1.set setName (ids ++ [id])
  | none => obj1

/-- The method `Set.prototype.add` on a set of strings kept in insertion
order. -/
def setAdd (s : List String) (x : String) : List String :=
  if x ∈ s then s else s ++ [x]

/-- The state of the evaluation loop: `selSetsWithElements`,
`elementIdsBySet` and the calls issued so far. -/
structure EvalState (ε : Type) where
  selSetsWithElements : List String
  elementIdsBySet : IdsBySet
  calls : List (Call ε)

/-- The body of the loop of lines 138-159 for one `prop`, with `id` the
identifier obtained at line 136. -/
def evalProperty {ε : Type} (api : DesiteAPI ε) (ifcPartial : String) (element : ε)
    (id : String) (st : EvalState ε) (prop : QuantitySpec) : EvalState ε :=
  let r := resolveValue api element prop.keys
  let value := r.1
  let status := statusOf value
  match status with
  | some status =>
    let setName := setNameOf ifcPartial status prop.displayName
    { selSetsWithElements := setAdd st.selSetsWithElements setName
      elementIdsBySet := st.elementIdsBySet.push setName id
      calls := st.calls ++ r.2 }
  | none => { st with calls := st.calls ++ r.2 }

/-- The body of the loop of lines 135-160 for one element. -/
def evalElement {ε : Type} (api : DesiteAPI ε) (ifcPartial : String)
    (properties : List QuantitySpec) (st : EvalState ε) (element : ε) : EvalState ε :=
  let id := api.idListToStr element
  properties.foldl (evalProperty api ifcPartial element id)
    { st with calls := st.calls ++ [Call.idListToStr element] }

/-- Lines 131-160: the two empty containers and the loop over
`filteredElements`; `calls` are the calls issued before the loop. -/
def evaluate {ε : Type} (api : DesiteAPI ε) (ifcPartial : String)
    (properties : List QuantitySpec) (filteredElements : List ε) (calls : List (Call ε)) :
    EvalState ε :=
  filteredElements.foldl (evalElement api ifcPartial properties)
    { selSetsWithElements := [], elementIdsBySet := [], calls := calls }

/-! ## Summary (lines 163-176) -/

/-- The body of the loop of lines 169-174 for one entry of
`Object.entries(elementIdsBySet)`. The state is `(host, calls so far)`. -/
def createStep {ε : Type} (st : HostState × List (Call ε)) (entry : String × List String) :
    HostState × List (Call ε) :=
  if entry.2.length > 0 then
    let r := st.1.createSelectionSet entry.1
    let selSet := r.1
    (r.2.addToSelectionSetGeometry selSet (join entry.2 ";"),
      st.2 ++ [Call.createSelectionSet entry.1,
        Call.addToSelectionSetGeometry selSet (join entry.2 ";")])
  else st

/-- What one run leaves behind: the returned string, every host call in
program order, and the host's selection sets. -/
structure Run (ε : Type) where
  result : String
  calls : List (Call ε)
  host : HostState

/-- The function `checkBaseQuantitiesDynamic(ifcPartial, properties)` run
against the model `api` with the host's selection sets `host`. -/
def checkBaseQuantitiesDynamic {ε : Type} (toLowerCase : String → String) (api : DesiteAPI ε)
    (host : HostState) (ifcPartial : String) (properties : List QuantitySpec) : Run ε :=
  let d := discover toLowerCase api ifcPartial
  let filteredElements := d.1
  if filteredElements.length = 0 then
    { result := "noElements", calls := d.2, host := host }
  else
    let st := evaluate api ifcPartial properties filteredElements
      (d.2 ++ [Call.showElementsOnly filteredElements])
    if st.selSetsWithElements.length = 0 then
      { result := "allOk", calls := st.calls, host := host }
    else
      let r := st.elementIdsBySet.foldl createStep (host, st.calls)
      { result := "issuesFound", calls := r.2, host := r.1 }

/-! ## A concrete model used in examples -/

/-- ASCII lower-casing, an instance of `toLowerCase` for examples. -/
def asciiLower (s : String) : String :=
  ⟨s.data.map Char.toLower⟩

/-- The specification of the end-to-end scenario: category `Wall` with one
quantity `Volume` and two alternative keys. -/
def wallSpecs : List QuantitySpec :=
  [{ keys := ["Qto_WallBaseQuantities.NetVolume", "Volume"], displayName := "Volume" }]

/-- A model with three walls `1`, `2`, `3` whose volumes resolve to `0`, `12.5`
and `-3`, and a slab `4`. Wall `1` has its volume under the first key, walls
`2` and `3` under the second; the slab has the volume `null`. Every element has
the length `5` under the key `Length`. -/
def wallModel : DesiteAPI Nat where
  getAllElements := fun domain => if domain = "geometry" then [1, 2, 3, 4] else []
  getString := fun e name =>
    if name = "ifcType" then (if e = 4 then some "IfcSlab" else some "IfcWallStandardCase")
    else none
  getDouble := fun e name =>
    if name = "Qto_WallBaseQuantities.NetVolume" then
      (if e = 1 then JSValue.number (JSNumber.finite 0 0) else JSValue.undefined)
    else if name = "Volume" then
      (if e = 2 then JSValue.number (JSNumber.finite 25 (-1))
       else if e = 3 then JSValue.number (JSNumber.finite (-3) 0)
       else JSValue.null)
    else if name = "Length" then JSValue.number (JSNumber.finite 5 0)
    else JSValue.undefined
  idListToStr := fun e => "id" ++ toString e

/-! ## Notions used to state the properties -/

/-- The category filter in the words of the specification: the lower-cased
`categoryName` occurs as a substring of the lower-cased `ifcType` or of the
lower-cased `ifcTypeObject`, an absent type string counting as the empty
string. -/
def SpecMatches {ε : Type} (toLowerCase : String → String) (api : DesiteAPI ε)
    (categoryName : String) (e : ε) : Prop :=
  (toLowerCase categoryName).data <:+: (toLowerCase ((api.getString e "ifcType").getD "")).data ∨
  (toLowerCase categoryName).data <:+:
    (toLowerCase ((api.getString e "ifcTypeObject").getD "")).data

instance {ε : Type} (toLowerCase : String → String) (api : DesiteAPI ε)
    (categoryName : String) (e : ε) : Decidable (SpecMatches toLowerCase api categoryName e) := by
  unfold SpecMatches
  exact inferInstance

/-- The shortest prefix of `ks` that ends at the first key with a defined
value, or all of `ks` when no key has one. -/
def queriedKeys {ε : Type} (api : DesiteAPI ε) (e : ε) (ks : List String) : List String :=
  ks.take (ks.findIdx (fun k => (api.getDouble e k).isDefined) + 1)

/-- The value of the first key of `ks` with a defined value, `undefined`
(absent) when there is none. -/
def firstDefinedValue {ε : Type} (api : DesiteAPI ε) (e : ε) (ks : List String) : JSValue :=
  match ks.find? (fun k => (api.getDouble e k).isDefined) with
  | some k => api.getDouble e k
  | none => JSValue.undefined

/-- The group a pair of element and quantity contributes to, from the status
and the name computed at lines 148-154; `none` when the pair has no status. -/
def issueOf {ε : Type} (api : DesiteAPI ε) (ifcPartial : String) (e : ε) (q : QuantitySpec) :
    Option String :=
  (statusOf (resolveValue api e q.keys).1).map
    (fun status => setNameOf ifcPartial status q.displayName)

/-- The pairs `(setName, id)` pushed for one element, in the order of
`properties`. -/
def appendsOfElement {ε : Type} (api : DesiteAPI ε) (ifcPartial : String)
    (properties : List QuantitySpec) (e : ε) : List (String × String) :=
  properties.filterMap (fun q => (issueOf api ifcPartial e q).map (fun n => (n, api.idListToStr e)))

/-- The pairs `(setName, id)` pushed during the evaluation of `es`, in program
order: elements in list order, and for each element the quantities in list
order. -/
def appendsOf {ε : Type} (api : DesiteAPI ε) (ifcPartial : String)
    (properties : List QuantitySpec) (es : List ε) : List (String × String) :=
  es.flatMap (appendsOfElement api ifcPartial properties)

/-- The distinct members of a list in the order of their first occurrence. -/
def firstOccurrences : List String → List String
  | [] => []
  | x :: xs => x :: (firstOccurrences xs).filter (fun y => decide (y ≠ x))

/-- The identifiers pushed under the name `n`, in push order. -/
def idsFor (ps : List (String × String)) (n : String) : List String :=
  (ps.filter (fun p => decide (p.1 = n))).map Prod.snd

/-- The groups a sequence of pushes builds: one per distinct name, in order of
first occurrence, each with its identifiers in push order. -/
def groupsOf (ps : List (String × String)) : IdsBySet :=
  (firstOccurrences (ps.map Prod.fst)).map (fun n => (n, idsFor ps n))

/-- The calls of the evaluation loop over `es`: per element one `idListToStr`
and then the double-typed queries of each quantity. -/
def evaluationCalls {ε : Type} (api : DesiteAPI ε) (properties : List QuantitySpec)
    (es : List ε) : List (Call ε) :=
  es.flatMap (fun e => Call.idListToStr e ::
    properties.flatMap (fun q => (resolveValue api e q.keys).2))

/-- The calls that create the groups `gs` when the host already holds `n`
selection sets: for each group a `createSelectionSet` and then an
`addToSelectionSetGeometry` on the handle of the new set. -/
def creationCalls {ε : Type} (n : Nat) (gs : IdsBySet) : List (Call ε) :=
  (gs.enumFrom n).flatMap (fun hg => [Call.createSelectionSet hg.2.1,
    Call.addToSelectionSetGeometry hg.1 (join hg.2.2 ";")])

/-- The selection sets the groups `gs` become. -/
def createdSets (gs : IdsBySet) : List SelectionSet :=
  gs.map (fun g => { name := g.1, geometry := [join g.2 ";"] })

/-- The identifier `id` was appended to exactly the group `name`: that group
has its former identifiers followed by `id` and every other group is as
before. -/
def AppendedTo (before after : IdsBySet) (name id : String) : Prop :=
  after.get name = some ((before.get name).getD [] ++ [id]) ∧
    ∀ other, other ≠ name → after.get other = before.get other

/-- The resolved value is `0`, negative or absent. -/
def IsIssue (value : JSValue) : Prop :=
  value.strictEqZero = true ∨ value.ltZero = true ∨ value = JSValue.undefined

/-- The resolved value is a positive number. -/
def IsPositive (value : JSValue) : Prop :=
  ∃ n, value = JSValue.number n ∧ n.isPositive = true

/-- The call is a double-typed property query. -/
def Call.isDoubleQuery {ε : Type} : Call ε → Bool
  | .getPropertyValue _ _ type => decide (type = "xs:double")
  | _ => false

/-- The call is a `showElementsOnly`. -/
def Call.isShowElementsOnly {ε : Type} : Call ε → Bool
  | .showElementsOnly _ => true
  | _ => false

/-- The call is an `idListToStr`. -/
def Call.isIdListToStr {ε : Type} : Call ε → Bool
  | .idListToStr _ => true
  | _ => false

/-- The call is a `createSelectionSet`. -/
def Call.isCreateSelectionSet {ε : Type} : Call ε → Bool
  | .createSelectionSet _ => true
  | _ => false

/-- The call is an `addToSelectionSetGeometry`. -/
def Call.isAddToSelectionSet {ε : Type} : Call ε → Bool
  | .addToSelectionSetGeometry _ _ => true
  | _ => false

/-- A catalog entry with two quantities that share the display name
`Volume`. -/
def sharedNameSpecs : List QuantitySpec :=
  [{ keys := ["GrossVolume"], displayName := "Volume" },
   { keys := ["NetVolume"], displayName := "Volume" }]

/-- A catalog entry whose quantity is positive on every element of
`wallModel`. -/
def lengthSpecs : List QuantitySpec :=
  [{ keys := ["Qto_WallBaseQuantities.Length", "Length"], displayName := "Length" }]

/-! ## Lemmas -/

/-! ## Strings -/

theorem includesChars_iff (hay needle : List Char) :
    includesChars hay needle = true ↔ needle <:+: hay := by
  induction hay with
  | nil => simp [includesChars, List.isEmpty_iff]
  | cons c cs ih =>
    simp only [includesChars, Bool.or_eq_true, ih, List.infix_cons_iff,
      List.isPrefixOf_iff_prefix]

theorem includes_iff (hay needle : String) :
    includes hay needle = true ↔ needle.data <:+: hay.data :=
  includesChars_iff hay.data needle.data

theorem lowerOrEmpty_eq (toLowerCase : String → String) (h0 : toLowerCase "" = "")
    (type : Option String) : lowerOrEmpty toLowerCase type = toLowerCase (type.getD "") := by
  cases type with
  | none => simp [lowerOrEmpty, h0]
  | some s =>
    by_cases hs : s = ""
    · simp [lowerOrEmpty, hs, h0]
    · simp [lowerOrEmpty, hs]

theorem matchesPartial_iff {ε : Type} (toLowerCase : String → String)
    (h0 : toLowerCase "" = "") (api : DesiteAPI ε) (ifcPartial : String) (e : ε) :
    matchesPartial toLowerCase api ifcPartial e = true ↔
      SpecMatches toLowerCase api ifcPartial e := by
  simp only [matchesPartial, SpecMatches, Bool.or_eq_true, includes_iff,
    lowerOrEmpty_eq toLowerCase h0]

/-! ## Discovery -/

theorem discover_foldl {ε : Type} (toLowerCase : String → String) (api : DesiteAPI ε)
    (ifcPartial : String) (es : List ε) (st : List ε × List (Call ε)) :
    es.foldl (discoverStep toLowerCase api ifcPartial) st =
      (st.1 ++ es.filter (matchesPartial toLowerCase api ifcPartial),
        st.2 ++ es.flatMap (fun e => [Call.getPropertyValue e "ifcType" "xs:string",
          Call.getPropertyValue e "ifcTypeObject" "xs:string"])) := by
  induction es generalizing st with
  | nil => simp
  | cons e es ih =>
    rw [List.foldl_cons, ih]
    by_cases hm : matchesPartial toLowerCase api ifcPartial e = true
    · simp [discoverStep, hm, List.filter_cons]
    · simp [discoverStep, hm, List.filter_cons]

theorem discover_fst {ε : Type} (toLowerCase : String → String) (api : DesiteAPI ε)
    (ifcPartial : String) :
    (discover toLowerCase api ifcPartial).1 =
      (api.getAllElements "geometry").filter (matchesPartial toLowerCase api ifcPartial) := by
  simp [discover, discover_foldl]

theorem discover_snd {ε : Type} (toLowerCase : String → String) (api : DesiteAPI ε)
    (ifcPartial : String) :
    (discover toLowerCase api ifcPartial).2 =
      Call.getAllElements "geometry" ::
        (api.getAllElements "geometry").flatMap
          (fun e => [Call.getPropertyValue e "ifcType" "xs:string",
            Call.getPropertyValue e "ifcTypeObject" "xs:string"]) := by
  simp [discover, discover_foldl]

/-! ## Key fallback -/

theorem probeKeys_calls {ε : Type} (api : DesiteAPI ε) (e : ε) (ks : List String)
    (value : JSValue) :
    (probeKeys api e ks value).2 =
      (queriedKeys api e ks).map (fun k => Call.getPropertyValue e k "xs:double") := by
  induction ks generalizing value with
  | nil => simp [probeKeys, queriedKeys]
  | cons k ks ih =>
    by_cases hd : (api.getDouble e k).isDefined = true
    · simp [probeKeys, queriedKeys, hd, List.findIdx_cons]
    · simp only [Bool.not_eq_true] at hd
      simp [probeKeys, queriedKeys, hd, List.findIdx_cons, ih (api.getDouble e k)]

theorem isDefined_false_iff (value : JSValue) :
    value.isDefined = false ↔ value = JSValue.null ∨ value = JSValue.undefined := by
  cases value <;> simp [JSValue.isDefined]

theorem probeKeys_value {ε : Type} (api : DesiteAPI ε) (e : ε) (ks : List String)
    (value : JSValue) (hv : value.isDefined = false) :
    (if (probeKeys api e ks value).1 = JSValue.null ∨
          (probeKeys api e ks value).1 = JSValue.undefined
      then JSValue.undefined else (probeKeys api e ks value).1) =
      firstDefinedValue api e ks := by
  induction ks generalizing value with
  | nil =>
    have h := (isDefined_false_iff value).1 hv
    simp [probeKeys, firstDefinedValue, h]
  | cons k ks ih =>
    by_cases hd : (api.getDouble e k).isDefined = true
    · have hn : ¬ (api.getDouble e k = JSValue.null ∨ api.getDouble e k = JSValue.undefined) := by
        intro h
        rw [← isDefined_false_iff] at h
        simp [h] at hd
      simp [probeKeys, firstDefinedValue, hd, List.find?_cons, hn]
    · simp only [Bool.not_eq_true] at hd
      have h := ih (api.getDouble e k) hd
      simp only [probeKeys, hd, Bool.false_eq_true, if_false]
      rw [h]
      simp [firstDefinedValue, List.find?_cons, hd]

theorem resolveValue_fst {ε : Type} (api : DesiteAPI ε) (e : ε) (ks : List String) :
    (resolveValue api e ks).1 = firstDefinedValue api e ks :=
  probeKeys_value api e ks JSValue.undefined rfl

theorem resolveValue_snd {ε : Type} (api : DesiteAPI ε) (e : ε) (ks : List String) :
    (resolveValue api e ks).2 =
      (queriedKeys api e ks).map (fun k => Call.getPropertyValue e k "xs:double") :=
  probeKeys_calls api e ks JSValue.undefined

theorem resolveValue_ne_null {ε : Type} (api : DesiteAPI ε) (e : ε) (ks : List String) :
    (resolveValue api e ks).1 ≠ JSValue.null := by
  unfold resolveValue
  simp only
  split_ifs with h
  · simp
  · exact fun hn => h (Or.inl hn)

/-! ## Grouping -/

theorem mem_firstOccurrences (l : List String) (n : String) :
    n ∈ firstOccurrences l ↔ n ∈ l := by
  induction l with
  | nil => simp [firstOccurrences]
  | cons x xs ih =>
    by_cases h : n = x
    · simp [firstOccurrences, h]
    · simp [firstOccurrences, h, ih, List.mem_filter]

theorem nodup_firstOccurrences (l : List String) : (firstOccurrences l).Nodup := by
  induction l with
  | nil => simp [firstOccurrences]
  | cons x xs ih =>
    simp only [firstOccurrences, List.nodup_cons, List.mem_filter]
    exact ⟨by simp, ih.filter _⟩

theorem firstOccurrences_concat (l : List String) (n : String) :
    firstOccurrences (l ++ [n]) = setAdd (firstOccurrences l) n := by
  induction l with
  | nil => simp [firstOccurrences, setAdd]
  | cons x xs ih =>
    rw [List.cons_append, firstOccurrences, ih, firstOccurrences]
    by_cases hx : n = x
    · subst hx
      by_cases hm : n ∈ firstOccurrences xs
      · simp [setAdd, hm]
      · simp [setAdd, hm, List.filter_append]
    · have hx2 : ¬ x = n := fun e => hx e.symm
      by_cases hm : n ∈ firstOccurrences xs
      · simp [setAdd, hm, hx, List.mem_filter]
      · simp [setAdd, hm, hx, hx2, List.mem_filter, List.filter_append]

theorem foldl_setAdd (l : List String) :
    l.foldl setAdd [] = firstOccurrences l := by
  induction l using List.reverseRecOn with
  | nil => rfl
  | append_singleton l a ih => rw [List.foldl_append, List.foldl_cons, List.foldl_nil, ih,
      firstOccurrences_concat]

theorem get_map (ks : List String) (f : String → List String) (n : String) :
    IdsBySet.get (ks.map (fun k => (k, f k))) n = if n ∈ ks then some (f n) else none := by
  induction ks with
  | nil => simp [IdsBySet.get]
  | cons k ks ih =>
    by_cases h : k = n
    · simp [IdsBySet.get, h]
    · have h2 : ¬ n = k := fun e => h e.symm
      simp [IdsBySet.get, h, h2, ih]

theorem set_map (ks : List String) (hk : ks.Nodup) (f : String → List String) (n : String)
    (v : List String) :
    IdsBySet.set (ks.map (fun k => (k, f k))) n v =
      (setAdd ks n).map (fun k => (k, if k = n then v else f k)) := by
  induction ks with
  | nil => simp [IdsBySet.set, setAdd]
  | cons k ks ih =>
    rw [List.nodup_cons] at hk
    by_cases h : k = n
    · subst h
      simp only [List.map_cons, IdsBySet.set, if_true, setAdd, List.mem_cons, true_or]
      congr 1
      apply List.map_congr_left
      intro a ha
      have : a ≠ k := fun e => hk.1 (e ▸ ha)
      simp [this]
    · have h2 : ¬ n = k := fun e => h e.symm
      have := ih hk.2
      simp only [List.map_cons, IdsBySet.set, h, if_false, this]
      by_cases hm : n ∈ ks
      · simp [setAdd, hm, h]
      · simp [setAdd, hm, h, h2]

theorem nodup_setAdd (ks : List String) (hk : ks.Nodup) (n : String) : (setAdd ks n).Nodup := by
  unfold setAdd
  split_ifs with h
  · exact hk
  · exact List.Nodup.append hk (List.nodup_singleton n) (by simpa using h)

theorem mem_setAdd (ks : List String) (n m : String) : m ∈ setAdd ks n ↔ m ∈ ks ∨ m = n := by
  unfold setAdd
  split_ifs with h
  · constructor
    · exact Or.inl
    · rintro (h1 | h1)
      · exact h1
      · exact h1 ▸ h
  · simp

theorem setAdd_of_mem (ks : List String) (n : String) (h : n ∈ ks) : setAdd ks n = ks := by
  simp [setAdd, h]

theorem push_map (ks : List String) (hk : ks.Nodup) (f : String → List String)
    (n id : String) :
    IdsBySet.push (ks.map (fun k => (k, f k))) n id =
      (setAdd ks n).map
        (fun k => (k, if k = n then (if n ∈ ks then f n else []) ++ [id] else f k)) := by
  by_cases hm : n ∈ ks
  · simp only [IdsBySet.push, get_map, hm, if_true, Option.isNone_some, Bool.false_eq_true,
      if_false]
    rw [set_map ks hk]
  · simp only [IdsBySet.push, get_map, hm, if_false, Option.isNone_none, if_true]
    rw [set_map ks hk, get_map]
    have hm2 : n ∈ setAdd ks n := (mem_setAdd ks n n).2 (Or.inr rfl)
    simp only [hm2, if_true]
    rw [set_map (setAdd ks n) (nodup_setAdd ks hk n), setAdd_of_mem _ _ hm2]
    apply List.map_congr_left
    intro a _
    by_cases ha : a = n
    · simp [ha]
    · simp [ha]

theorem idsFor_concat (ps : List (String × String)) (n id k : String) :
    idsFor (ps ++ [(n, id)]) k = if k = n then idsFor ps k ++ [id] else idsFor ps k := by
  unfold idsFor
  by_cases h : k = n
  · simp [List.filter_append, h]
  · have h2 : ¬ n = k := fun e => h e.symm
    simp [List.filter_append, h, h2]

theorem idsFor_eq_nil (ps : List (String × String)) (n : String)
    (h : n ∉ ps.map Prod.fst) : idsFor ps n = [] := by
  unfold idsFor
  simp only [List.map_eq_nil_iff, List.filter_eq_nil_iff, decide_eq_true_eq]
  intro p hp he
  exact h (List.mem_map.2 ⟨p, hp, he⟩)

theorem idsFor_ne_nil (ps : List (String × String)) (n : String)
    (h : n ∈ ps.map Prod.fst) : idsFor ps n ≠ [] := by
  obtain ⟨p, hp, he⟩ := List.mem_map.1 h
  intro hnil
  have : p.2 ∈ idsFor ps n := by
    unfold idsFor
    exact List.mem_map.2 ⟨p, List.mem_filter.2 ⟨hp, by simpa using he⟩, rfl⟩
  rw [hnil] at this
  exact List.not_mem_nil _ this

theorem push_groupsOf (ps : List (String × String)) (n id : String) :
    IdsBySet.push (groupsOf ps) n id = groupsOf (ps ++ [(n, id)]) := by
  unfold groupsOf
  rw [push_map _ (nodup_firstOccurrences _), List.map_append, List.map_cons, List.map_nil,
    firstOccurrences_concat]
  apply List.map_congr_left
  intro a _
  rw [idsFor_concat]
  by_cases ha : a = n
  · subst ha
    by_cases hm : a ∈ firstOccurrences (ps.map Prod.fst)
    · simp [hm]
    · have := idsFor_eq_nil ps a (fun h => hm ((mem_firstOccurrences _ _).2 h))
      simp [hm, this]
  · simp [ha]

theorem foldl_push (ps : List (String × String)) :
    ps.foldl (fun o p => IdsBySet.push o p.1 p.2) [] = groupsOf ps := by
  induction ps using List.reverseRecOn with
  | nil => rfl
  | append_singleton l a ih =>
    rw [List.foldl_append, List.foldl_cons, List.foldl_nil, ih, push_groupsOf]

theorem foldl_push_append (ps qs : List (String × String)) :
    qs.foldl (fun o p => IdsBySet.push o p.1 p.2) (groupsOf ps) = groupsOf (ps ++ qs) := by
  rw [← foldl_push, ← foldl_push, List.foldl_append]

theorem foldl_setAdd_append (l m : List String) :
    m.foldl setAdd (firstOccurrences l) = firstOccurrences (l ++ m) := by
  rw [← foldl_setAdd, ← foldl_setAdd, List.foldl_append]

/-! ## Evaluation -/

theorem evalProperty_eq {ε : Type} (api : DesiteAPI ε) (ifcPartial : String) (e : ε)
    (q : QuantitySpec) (ps : List (String × String)) (calls : List (Call ε)) :
    evalProperty api ifcPartial e (api.idListToStr e)
        ⟨firstOccurrences (ps.map Prod.fst), groupsOf ps, calls⟩ q =
      ⟨firstOccurrences ((ps ++ appendsOfElement api ifcPartial [q] e).map Prod.fst),
        groupsOf (ps ++ appendsOfElement api ifcPartial [q] e),
        calls ++ (resolveValue api e q.keys).2⟩ := by
  unfold evalProperty appendsOfElement issueOf
  cases hs : statusOf (resolveValue api e q.keys).1 with
  | none => simp [hs]
  | some status =>
    simp only [hs, Option.map_some', List.filterMap_cons, List.filterMap_nil, List.map_append,
      List.map_cons, List.map_nil, firstOccurrences_concat, push_groupsOf]

theorem appendsOfElement_cons {ε : Type} (api : DesiteAPI ε) (ifcPartial : String) (e : ε)
    (q : QuantitySpec) (qs : List QuantitySpec) :
    appendsOfElement api ifcPartial (q :: qs) e =
      appendsOfElement api ifcPartial [q] e ++ appendsOfElement api ifcPartial qs e := by
  unfold appendsOfElement
  cases h : issueOf api ifcPartial e q <;> simp [List.filterMap_cons, h]

theorem foldl_evalProperty {ε : Type} (api : DesiteAPI ε) (ifcPartial : String) (e : ε)
    (qs : List QuantitySpec) (ps : List (String × String)) (calls : List (Call ε)) :
    qs.foldl (evalProperty api ifcPartial e (api.idListToStr e))
        ⟨firstOccurrences (ps.map Prod.fst), groupsOf ps, calls⟩ =
      ⟨firstOccurrences ((ps ++ appendsOfElement api ifcPartial qs e).map Prod.fst),
        groupsOf (ps ++ appendsOfElement api ifcPartial qs e),
        calls ++ qs.flatMap (fun q => (resolveValue api e q.keys).2)⟩ := by
  induction qs generalizing ps calls with
  | nil => simp [appendsOfElement]
  | cons q qs ih =>
    rw [List.foldl_cons, evalProperty_eq, ih, appendsOfElement_cons api ifcPartial e q qs,
      List.append_assoc, List.flatMap_cons, List.append_assoc]

theorem evalElement_eq {ε : Type} (api : DesiteAPI ε) (ifcPartial : String)
    (properties : List QuantitySpec) (e : ε) (ps : List (String × String))
    (calls : List (Call ε)) :
    evalElement api ifcPartial properties
        ⟨firstOccurrences (ps.map Prod.fst), groupsOf ps, calls⟩ e =
      ⟨firstOccurrences ((ps ++ appendsOfElement api ifcPartial properties e).map Prod.fst),
        groupsOf (ps ++ appendsOfElement api ifcPartial properties e),
        calls ++ [Call.idListToStr e] ++
          properties.flatMap (fun q => (resolveValue api e q.keys).2)⟩ := by
  unfold evalElement
  simp only
  rw [foldl_evalProperty]

theorem foldl_evalElement {ε : Type} (api : DesiteAPI ε) (ifcPartial : String)
    (properties : List QuantitySpec) (es : List ε) (ps : List (String × String))
    (calls : List (Call ε)) :
    es.foldl (evalElement api ifcPartial properties)
        ⟨firstOccurrences (ps.map Prod.fst), groupsOf ps, calls⟩ =
      ⟨firstOccurrences ((ps ++ appendsOf api ifcPartial properties es).map Prod.fst),
        groupsOf (ps ++ appendsOf api ifcPartial properties es),
        calls ++ evaluationCalls api properties es⟩ := by
  induction es generalizing ps calls with
  | nil => simp [appendsOf, evaluationCalls]
  | cons e es ih =>
    rw [List.foldl_cons, evalElement_eq, ih]
    simp [appendsOf, evaluationCalls, List.append_assoc]

theorem evaluate_eq {ε : Type} (api : DesiteAPI ε) (ifcPartial : String)
    (properties : List QuantitySpec) (es : List ε) (calls : List (Call ε)) :
    evaluate api ifcPartial properties es calls =
      ⟨firstOccurrences ((appendsOf api ifcPartial properties es).map Prod.fst),
        groupsOf (appendsOf api ifcPartial properties es),
        calls ++ evaluationCalls api properties es⟩ := by
  have h := foldl_evalElement api ifcPartial properties es [] calls
  simpa [evaluate, groupsOf, firstOccurrences] using h

/-! ## Summary -/

theorem modify_length_concat {α : Type} (f : α → α) (l : List α) (x : α) :
    List.modify f l.length (l ++ [x]) = l ++ [f x] := by
  induction l with
  | nil => rfl
  | cons a l ih => simp [List.modify_succ_cons, ih]

theorem createStep_eq {ε : Type} (host : HostState) (calls : List (Call ε))
    (g : String × List String) (hg : g.2 ≠ []) :
    createStep (host, calls) g =
      (host ++ createdSets [g], calls ++ creationCalls host.length [g]) := by
  have hl : g.2.length > 0 := List.length_pos.2 hg
  simp only [createStep, hl, if_true, HostState.createSelectionSet,
    HostState.addToSelectionSetGeometry, modify_length_concat, createdSets, creationCalls,
    List.map_cons, List.map_nil, List.enumFrom_cons, List.enumFrom_nil, List.flatMap_cons,
    List.flatMap_nil, List.append_nil, List.nil_append]

theorem creationCalls_cons {ε : Type} (n : Nat) (g : String × List String) (gs : IdsBySet) :
    (creationCalls n (g :: gs) : List (Call ε)) =
      creationCalls n [g] ++ creationCalls (n + 1) gs := by
  simp [creationCalls, List.enumFrom_cons]

theorem foldl_createStep {ε : Type} (gs : IdsBySet) (hgs : ∀ g ∈ gs, g.2 ≠ [])
    (host : HostState) (calls : List (Call ε)) :
    gs.foldl createStep (host, calls) =
      (host ++ createdSets gs, calls ++ creationCalls host.length gs) := by
  induction gs generalizing host calls with
  | nil => simp [createdSets, creationCalls]
  | cons g gs ih =>
    rw [List.foldl_cons, createStep_eq host calls g (hgs g (List.mem_cons_self _ _)),
      ih (fun g hg => hgs g (List.mem_cons_of_mem _ hg)), creationCalls_cons host.length g gs]
    simp [createdSets, List.append_assoc]

theorem groupsOf_nonempty (ps : List (String × String)) : ∀ g ∈ groupsOf ps, g.2 ≠ [] := by
  intro g hg
  obtain ⟨n, hn, rfl⟩ := List.mem_map.1 hg
  exact idsFor_ne_nil ps n ((mem_firstOccurrences _ _).1 hn)

theorem firstOccurrences_eq_nil (l : List String) : firstOccurrences l = [] ↔ l = [] := by
  cases l <;> simp [firstOccurrences]

/-! ## The three outcomes -/

theorem run_noElements {ε : Type} (toLowerCase : String → String) (api : DesiteAPI ε)
    (host : HostState) (ifcPartial : String) (properties : List QuantitySpec)
    (h : (discover toLowerCase api ifcPartial).1 = []) :
    checkBaseQuantitiesDynamic toLowerCase api host ifcPartial properties =
      ⟨"noElements", (discover toLowerCase api ifcPartial).2, host⟩ := by
  simp [checkBaseQuantitiesDynamic, h]

theorem run_allOk {ε : Type} (toLowerCase : String → String) (api : DesiteAPI ε)
    (host : HostState) (ifcPartial : String) (properties : List QuantitySpec)
    (h : (discover toLowerCase api ifcPartial).1 ≠ [])
    (ha : appendsOf api ifcPartial properties (discover toLowerCase api ifcPartial).1 = []) :
    checkBaseQuantitiesDynamic toLowerCase api host ifcPartial properties =
      ⟨"allOk", (discover toLowerCase api ifcPartial).2 ++
          [Call.showElementsOnly (discover toLowerCase api ifcPartial).1] ++
          evaluationCalls api properties (discover toLowerCase api ifcPartial).1, host⟩ := by
  simp [checkBaseQuantitiesDynamic, h, evaluate_eq, ha, firstOccurrences]

theorem run_issuesFound {ε : Type} (toLowerCase : String → String) (api : DesiteAPI ε)
    (host : HostState) (ifcPartial : String) (properties : List QuantitySpec)
    (h : (discover toLowerCase api ifcPartial).1 ≠ [])
    (ha : appendsOf api ifcPartial properties (discover toLowerCase api ifcPartial).1 ≠ []) :
    checkBaseQuantitiesDynamic toLowerCase api host ifcPartial properties =
      ⟨"issuesFound", (discover toLowerCase api ifcPartial).2 ++
          [Call.showElementsOnly (discover toLowerCase api ifcPartial).1] ++
          evaluationCalls api properties (discover toLowerCase api ifcPartial).1 ++
          creationCalls host.length
            (groupsOf (appendsOf api ifcPartial properties (discover toLowerCase api ifcPartial).1)),
        host ++ createdSets
          (groupsOf (appendsOf api ifcPartial properties
            (discover toLowerCase api ifcPartial).1))⟩ := by
  have hf : firstOccurrences ((appendsOf api ifcPartial properties
      (discover toLowerCase api ifcPartial).1).map Prod.fst) ≠ [] := by
    rw [Ne, firstOccurrences_eq_nil, List.map_eq_nil_iff]
    exact ha
  simp only [checkBaseQuantitiesDynamic, List.length_eq_zero, h, if_false, evaluate_eq, hf,
    foldl_createStep _ (groupsOf_nonempty _)]

/-! ## Calls of each phase -/

theorem discover_calls_kind {ε : Type} (toLowerCase : String → String) (api : DesiteAPI ε)
    (ifcPartial : String) :
    ∀ c ∈ (discover toLowerCase api ifcPartial).2,
      c.isShowElementsOnly = false ∧ c.isDoubleQuery = false ∧ c.isIdListToStr = false ∧
        c.isCreateSelectionSet = false ∧ c.isAddToSelectionSet = false := by
  intro c hc
  rw [discover_snd] at hc
  simp only [List.mem_cons, List.mem_flatMap, List.not_mem_nil, or_false] at hc
  rcases hc with rfl | ⟨e, _, rfl | rfl⟩ <;>
    simp [Call.isShowElementsOnly, Call.isDoubleQuery, Call.isIdListToStr,
      Call.isCreateSelectionSet, Call.isAddToSelectionSet]

theorem evaluationCalls_kind {ε : Type} (api : DesiteAPI ε) (properties : List QuantitySpec)
    (es : List ε) :
    ∀ c ∈ evaluationCalls api properties es,
      c.isShowElementsOnly = false ∧ c.isCreateSelectionSet = false ∧
        c.isAddToSelectionSet = false := by
  intro c hc
  simp only [evaluationCalls, List.mem_flatMap, List.mem_cons, resolveValue_snd,
    List.mem_map] at hc
  rcases hc with ⟨e, _, rfl | ⟨q, _, k, _, rfl⟩⟩ <;>
    simp [Call.isShowElementsOnly, Call.isCreateSelectionSet, Call.isAddToSelectionSet]

theorem creationCalls_kind {ε : Type} (n : Nat) (gs : IdsBySet) :
    ∀ c ∈ (creationCalls n gs : List (Call ε)),
      c.isShowElementsOnly = false ∧ c.isDoubleQuery = false ∧ c.isIdListToStr = false := by
  intro c hc
  simp only [creationCalls, List.mem_flatMap, List.mem_cons, List.mem_singleton,
    List.not_mem_nil, or_false] at hc
  rcases hc with ⟨hg, _, rfl | rfl⟩ <;>
    simp [Call.isShowElementsOnly, Call.isDoubleQuery, Call.isIdListToStr]

theorem filter_eq_nil_of_forall {α : Type} (p : α → Bool) (l : List α)
    (h : ∀ c ∈ l, p c = false) : l.filter p = [] := by
  rw [List.filter_eq_nil_iff]
  intro c hc
  simp [h c hc]

theorem queries_doubleQueries {ε : Type} (api : DesiteAPI ε) (properties : List QuantitySpec)
    (e : ε) :
    (properties.flatMap (fun q => (resolveValue api e q.keys).2)).filter Call.isDoubleQuery =
      properties.flatMap (fun q =>
        (queriedKeys api e q.keys).map (fun k => Call.getPropertyValue e k "xs:double")) := by
  induction properties with
  | nil => rfl
  | cons q qs ihq =>
    rw [List.flatMap_cons, List.flatMap_cons, List.filter_append, ihq, resolveValue_snd]
    congr 1
    rw [List.filter_eq_self]
    intro c hc
    obtain ⟨k, _, rfl⟩ := List.mem_map.1 hc
    simp [Call.isDoubleQuery]

theorem evaluationCalls_doubleQueries {ε : Type} (api : DesiteAPI ε)
    (properties : List QuantitySpec) (es : List ε) :
    (evaluationCalls api properties es).filter Call.isDoubleQuery =
      es.flatMap (fun e => properties.flatMap (fun q =>
        (queriedKeys api e q.keys).map (fun k => Call.getPropertyValue e k "xs:double"))) := by
  unfold evaluationCalls
  induction es with
  | nil => rfl
  | cons e es ih =>
    rw [List.flatMap_cons, List.flatMap_cons, List.filter_append, ih, List.filter_cons,
      queries_doubleQueries]
    simp [Call.isDoubleQuery]

theorem run_cases {ε : Type} (toLowerCase : String → String) (api : DesiteAPI ε)
    (host : HostState) (ifcPartial : String) (properties : List QuantitySpec) :
    ((discover toLowerCase api ifcPartial).1 = [] ∧
      checkBaseQuantitiesDynamic toLowerCase api host ifcPartial properties =
        ⟨"noElements", (discover toLowerCase api ifcPartial).2, host⟩) ∨
    ((discover toLowerCase api ifcPartial).1 ≠ [] ∧
      appendsOf api ifcPartial properties (discover toLowerCase api ifcPartial).1 = [] ∧
      checkBaseQuantitiesDynamic toLowerCase api host ifcPartial properties =
        ⟨"allOk", (discover toLowerCase api ifcPartial).2 ++
          [Call.showElementsOnly (discover toLowerCase api ifcPartial).1] ++
          evaluationCalls api properties (discover toLowerCase api ifcPartial).1, host⟩) ∨
    ((discover toLowerCase api ifcPartial).1 ≠ [] ∧
      appendsOf api ifcPartial properties (discover toLowerCase api ifcPartial).1 ≠ [] ∧
      checkBaseQuantitiesDynamic toLowerCase api host ifcPartial properties =
        ⟨"issuesFound", (discover toLowerCase api ifcPartial).2 ++
          [Call.showElementsOnly (discover toLowerCase api ifcPartial).1] ++
          evaluationCalls api properties (discover toLowerCase api ifcPartial).1 ++
          creationCalls host.length
            (groupsOf (appendsOf api ifcPartial properties (discover toLowerCase api ifcPartial).1)),
        host ++ createdSets
          (groupsOf (appendsOf api ifcPartial properties
            (discover toLowerCase api ifcPartial).1))⟩) := by
  by_cases h : (discover toLowerCase api ifcPartial).1 = []
  · exact Or.inl ⟨h, run_noElements toLowerCase api host ifcPartial properties h⟩
  · by_cases ha : appendsOf api ifcPartial properties (discover toLowerCase api ifcPartial).1 = []
    · exact Or.inr (Or.inl ⟨h, ha, run_allOk toLowerCase api host ifcPartial properties h ha⟩)
    · exact Or.inr (Or.inr ⟨h, ha,
        run_issuesFound toLowerCase api host ifcPartial properties h ha⟩)

theorem run_doubleQueries {ε : Type} (toLowerCase : String → String) (api : DesiteAPI ε)
    (host : HostState) (ifcPartial : String) (properties : List QuantitySpec) :
    (checkBaseQuantitiesDynamic toLowerCase api host ifcPartial properties).calls.filter
        Call.isDoubleQuery =
      (discover toLowerCase api ifcPartial).1.flatMap (fun e => properties.flatMap (fun q =>
        (queriedKeys api e q.keys).map (fun k => Call.getPropertyValue e k "xs:double"))) := by
  have hd := filter_eq_nil_of_forall Call.isDoubleQuery _
    (fun c hc => (discover_calls_kind toLowerCase api ifcPartial c hc).2.1)
  rcases run_cases toLowerCase api host ifcPartial properties with ⟨h, hr⟩ | ⟨h, ha, hr⟩ |
    ⟨h, ha, hr⟩
  · rw [hr, h]
    simpa using hd
  · rw [hr]
    simp only [List.filter_append, hd, evaluationCalls_doubleQueries, List.nil_append]
    simp [List.filter_cons, Call.isDoubleQuery]
  · rw [hr]
    simp only [List.filter_append, hd, evaluationCalls_doubleQueries, List.nil_append]
    rw [filter_eq_nil_of_forall Call.isDoubleQuery _
      (fun c hc => (creationCalls_kind _ _ c hc).2.1)]
    simp [List.filter_cons, Call.isDoubleQuery]

/-! ## Classification -/

theorem statusOf_eq_none_iff (value : JSValue) : statusOf value = none ↔ ¬ IsIssue value := by
  unfold statusOf IsIssue
  by_cases h1 : value.strictEqZero = true
  · simp [h1]
  · by_cases h2 : value.ltZero = true
    · simp [h1, h2]
    · by_cases h3 : value = JSValue.undefined
      · simp [h3, JSValue.strictEqZero, JSValue.ltZero]
      · simp [h1, h2, h3]

theorem issueOf_eq_none_iff {ε : Type} (api : DesiteAPI ε) (ifcPartial : String) (e : ε)
    (q : QuantitySpec) :
    issueOf api ifcPartial e q = none ↔ ¬ IsIssue (resolveValue api e q.keys).1 := by
  rw [← statusOf_eq_none_iff]
  simp [issueOf]

theorem appendsOf_eq_nil_iff {ε : Type} (api : DesiteAPI ε) (ifcPartial : String)
    (properties : List QuantitySpec) (es : List ε) :
    appendsOf api ifcPartial properties es = [] ↔
      ∀ e ∈ es, ∀ q ∈ properties, ¬ IsIssue (resolveValue api e q.keys).1 := by
  simp only [appendsOf, appendsOfElement, List.flatMap_eq_nil_iff, List.filterMap_eq_nil_iff,
    Option.map_eq_none', issueOf_eq_none_iff]

theorem not_isIssue_of_isPositive (value : JSValue) (h : IsPositive value) : ¬ IsIssue value := by
  obtain ⟨n, rfl, hn⟩ := h
  cases n with
  | nan => simp [JSNumber.isPositive] at hn
  | posInf => simp [IsIssue, JSValue.strictEqZero, JSValue.ltZero, JSNumber.isZero,
      JSNumber.isNegative]
  | negInf => simp [JSNumber.isPositive] at hn
  | finite m x =>
    simp only [JSNumber.isPositive, decide_eq_true_eq] at hn
    simp only [IsIssue, JSValue.strictEqZero, JSValue.ltZero, JSNumber.isZero,
      JSNumber.isNegative, decide_eq_true_eq, reduceCtorEq, or_false]
    omega

theorem creationCalls_groupsOf {ε : Type} (n : Nat) (ps : List (String × String)) :
    (creationCalls n (groupsOf ps) : List (Call ε)) =
      ((firstOccurrences (ps.map Prod.fst)).enumFrom n).flatMap
        (fun hn => [Call.createSelectionSet hn.2,
          Call.addToSelectionSetGeometry hn.1 (join (idsFor ps hn.2) ";")]) := by
  unfold creationCalls groupsOf
  generalize firstOccurrences (ps.map Prod.fst) = ns
  induction ns generalizing n with
  | nil => rfl
  | cons a ns ih => simp [List.enumFrom_cons, ih]

theorem createdSets_groupsOf (ps : List (String × String)) :
    createdSets (groupsOf ps) =
      (firstOccurrences (ps.map Prod.fst)).map
        (fun n => { name := n, geometry := [join (idsFor ps n) ";"] }) := by
  simp [createdSets, groupsOf]

/-! ## Reads after writes on `elementIdsBySet` -/

theorem get_set_self (obj : IdsBySet) (n : String) (v : List String) :
    (obj.set n v).get n = some v := by
  induction obj with
  | nil => simp [IdsBySet.set, IdsBySet.get]
  | cons p rest ih =>
    obtain ⟨k, old⟩ := p
    by_cases h : k = n
    · simp [IdsBySet.set, IdsBySet.get, h]
    · simp [IdsBySet.set, IdsBySet.get, h, ih]

theorem get_set_other (obj : IdsBySet) (n m : String) (v : List String) (h : m ≠ n) :
    (obj.set n v).get m = obj.get m := by
  induction obj with
  | nil =>
    have h2 : ¬ n = m := fun e => h e.symm
    simp [IdsBySet.set, IdsBySet.get, h2]
  | cons p rest ih =>
    obtain ⟨k, old⟩ := p
    by_cases hk : k = n
    · subst hk
      have h2 : ¬ k = m := fun e => h e.symm
      simp [IdsBySet.set, IdsBySet.get, h2]
    · by_cases hm : k = m
      · subst hm
        simp [IdsBySet.set, IdsBySet.get, hk]
      · simp [IdsBySet.set, IdsBySet.get, hk, hm, ih]

theorem appendedTo_push (obj : IdsBySet) (n id : String) :
    AppendedTo obj (obj.push n id) n id := by
  unfold AppendedTo IdsBySet.push
  cases hg : obj.get n with
  | none =>
    simp only [Option.isNone_none, if_true, get_set_self, Option.getD_none, List.nil_append]
    refine ⟨trivial, fun other ho => ?_⟩
    rw [get_set_other _ _ _ _ ho, get_set_other _ _ _ _ ho]
  | some ids =>
    simp only [Option.isNone_some, Bool.false_eq_true, if_false, hg, get_set_self,
      Option.getD_some]
    exact ⟨trivial, fun other ho => get_set_other _ _ _ _ ho⟩

theorem evalProperty_groups {ε : Type} (api : DesiteAPI ε) (ifcPartial : String) (e : ε)
    (id : String) (st : EvalState ε) (q : QuantitySpec) :
    (evalProperty api ifcPartial e id st q).elementIdsBySet =
      match statusOf (resolveValue api e q.keys).1 with
      | some status => st.elementIdsBySet.push (setNameOf ifcPartial status q.displayName) id
      | none => st.elementIdsBySet := by
  unfold evalProperty
  cases hs : statusOf (resolveValue api e q.keys).1 <;> simp [hs]

theorem setNameOf_eq (ifcPartial status displayName : String) :
    setNameOf ifcPartial status displayName =
      ifcPartial ++ (" with " ++ status ++ " ") ++ displayName := by
  simp [setNameOf, String.append_assoc]

/-! ## Group names determine the display name -/

theorem statusOf_mem (value : JSValue) (s : String) (h : statusOf value = some s) :
    s = "zero" ∨ s = "negative" ∨ s = "undefined" := by
  unfold statusOf at h
  split_ifs at h <;> simp_all

theorem setNameOf_injective (ifcPartial s1 s2 d1 d2 : String)
    (h1 : s1 = "zero" ∨ s1 = "negative" ∨ s1 = "undefined")
    (h2 : s2 = "zero" ∨ s2 = "negative" ∨ s2 = "undefined")
    (h : setNameOf ifcPartial s1 d1 = setNameOf ifcPartial s2 d2) : d1 = d2 := by
  have hd := congrArg String.data h
  simp only [setNameOf, String.data_append, List.append_assoc, List.append_cancel_left_eq] at hd
  have hw : " with ".data = [' ', 'w', 'i', 't', 'h', ' '] := rfl
  have hsp : " ".data = [' '] := rfl
  have hz : "zero".data = ['z', 'e', 'r', 'o'] := rfl
  have hn : "negative".data = ['n', 'e', 'g', 'a', 't', 'i', 'v', 'e'] := rfl
  have hu : "undefined".data = ['u', 'n', 'd', 'e', 'f', 'i', 'n', 'e', 'd'] := rfl
  apply String.ext
  rcases h1 with rfl | rfl | rfl <;> rcases h2 with rfl | rfl | rfl <;>
    simp only [hw, hsp, hz, hn, hu, List.cons_append, List.nil_append, List.cons.injEq,
      true_and] at hd <;> first | exact hd | (exact absurd hd.1 (by decide))

theorem issueOf_displayName {ε : Type} (api : DesiteAPI ε) (ifcPartial : String) (e : ε)
    (q1 q2 : QuantitySpec) (n : String) (h1 : issueOf api ifcPartial e q1 = some n)
    (h2 : issueOf api ifcPartial e q2 = some n) : q1.displayName = q2.displayName := by
  unfold issueOf at h1 h2
  rw [Option.map_eq_some'] at h1 h2
  obtain ⟨s1, hs1, rfl⟩ := h1
  obtain ⟨s2, hs2, he⟩ := h2
  exact (setNameOf_injective ifcPartial s2 s1 _ _ (statusOf_mem _ _ hs2) (statusOf_mem _ _ hs1)
    he).symm

/-! ## Identifiers of one group -/

theorem idsFor_append (ps qs : List (String × String)) (n : String) :
    idsFor (ps ++ qs) n = idsFor ps n ++ idsFor qs n := by
  simp [idsFor, List.filter_append]

theorem idsFor_single {ε : Type} (api : DesiteAPI ε) (ifcPartial : String) (e : ε)
    (q : QuantitySpec) (n : String) :
    idsFor (appendsOfElement api ifcPartial [q] e) n =
      if issueOf api ifcPartial e q = some n then [api.idListToStr e] else [] := by
  unfold appendsOfElement idsFor
  cases h : issueOf api ifcPartial e q with
  | none => simp [h]
  | some m =>
    by_cases hm : m = n
    · simp [h, hm]
    · simp [h, hm]

theorem idsFor_element_eq_nil {ε : Type} (api : DesiteAPI ε) (ifcPartial : String) (e : ε)
    (qs : List QuantitySpec) (n : String)
    (h : ∀ q ∈ qs, issueOf api ifcPartial e q ≠ some n) :
    idsFor (appendsOfElement api ifcPartial qs e) n = [] := by
  induction qs with
  | nil => rfl
  | cons q qs ih =>
    rw [appendsOfElement_cons, idsFor_append, idsFor_single,
      ih (fun q hq => h q (List.mem_cons_of_mem _ hq))]
    simp [h q (List.mem_cons_self _ _)]

theorem idsFor_element {ε : Type} (api : DesiteAPI ε) (ifcPartial : String) (e : ε)
    (qs : List QuantitySpec) (hq : (qs.map QuantitySpec.displayName).Nodup) (n : String) :
    idsFor (appendsOfElement api ifcPartial qs e) n = [] ∨
      idsFor (appendsOfElement api ifcPartial qs e) n = [api.idListToStr e] := by
  induction qs with
  | nil => exact Or.inl rfl
  | cons q qs ih =>
    rw [List.map_cons, List.nodup_cons] at hq
    rw [appendsOfElement_cons, idsFor_append, idsFor_single]
    by_cases h : issueOf api ifcPartial e q = some n
    · right
      have hrest : idsFor (appendsOfElement api ifcPartial qs e) n = [] := by
        apply idsFor_element_eq_nil
        intro q2 hq2 h2
        apply hq.1
        rw [issueOf_displayName api ifcPartial e q q2 n h h2]
        exact List.mem_map_of_mem _ hq2
      simp [h, hrest]
    · simpa [h] using ih hq.2

theorem idsFor_appendsOf_subset {ε : Type} (api : DesiteAPI ε) (ifcPartial : String)
    (qs : List QuantitySpec) (es : List ε) (n x : String)
    (h : x ∈ idsFor (appendsOf api ifcPartial qs es) n) : x ∈ es.map api.idListToStr := by
  unfold idsFor appendsOf appendsOfElement at h
  simp only [List.mem_map, List.mem_filter, List.mem_flatMap, List.mem_filterMap,
    Option.map_eq_some'] at h
  obtain ⟨p, ⟨⟨e, he, q, _, m, _, rfl⟩, _⟩, rfl⟩ := h
  exact List.mem_map_of_mem _ he

theorem idsFor_appendsOf_nodup {ε : Type} (api : DesiteAPI ε) (ifcPartial : String)
    (qs : List QuantitySpec) (hq : (qs.map QuantitySpec.displayName).Nodup) (es : List ε)
    (he : (es.map api.idListToStr).Nodup) (n : String) :
    (idsFor (appendsOf api ifcPartial qs es) n).Nodup := by
  induction es with
  | nil => simp [appendsOf, idsFor]
  | cons e es ih =>
    rw [List.map_cons, List.nodup_cons] at he
    have hsplit : appendsOf api ifcPartial qs (e :: es) =
        appendsOfElement api ifcPartial qs e ++ appendsOf api ifcPartial qs es := by
      simp [appendsOf]
    rw [hsplit, idsFor_append]
    rcases idsFor_element api ifcPartial e qs hq n with h | h
    · rw [h]
      exact ih he.2
    · rw [h, List.singleton_append, List.nodup_cons]
      exact ⟨fun hx => he.1 (idsFor_appendsOf_subset api ifcPartial qs es n _ hx), ih he.2⟩

/-! ## The claims -/

/-! ### Classification and group names -/

/-- C1: for an element `e` and a quantity `q`, the body of the evaluation loop
appends the identifier of `e` to exactly the group
`ifcPartial ++ " with zero " ++ q.displayName` when the resolved value is `0`,
to the `negative` group when it is below `0`, to the `undefined` group when it
is absent, and changes no group when it is any other number; the resolved value
is always absent or a number; and category `Wall`, status `negative`, display
name `Volume` give the name `Wall with negative Volume`. -/
theorem classification_and_group_name {ε : Type} (api : DesiteAPI ε) (ifcPartial : String)
    (e : ε) (q : QuantitySpec) (st : EvalState ε) :
    ((resolveValue api e q.keys).1.strictEqZero = true →
        AppendedTo st.elementIdsBySet
          (evalProperty api ifcPartial e (api.idListToStr e) st q).elementIdsBySet
          (ifcPartial ++ " with zero " ++ q.displayName) (api.idListToStr e)) ∧
      ((resolveValue api e q.keys).1.ltZero = true →
        AppendedTo st.elementIdsBySet
          (evalProperty api ifcPartial e (api.idListToStr e) st q).elementIdsBySet
          (ifcPartial ++ " with negative " ++ q.displayName) (api.idListToStr e)) ∧
      ((resolveValue api e q.keys).1 = JSValue.undefined →
        AppendedTo st.elementIdsBySet
          (evalProperty api ifcPartial e (api.idListToStr e) st q).elementIdsBySet
          (ifcPartial ++ " with undefined " ++ q.displayName) (api.idListToStr e)) ∧
      (∀ n, (resolveValue api e q.keys).1 = JSValue.number n → n.isZero = false →
        n.isNegative = false →
        (evalProperty api ifcPartial e (api.idListToStr e) st q).elementIdsBySet =
          st.elementIdsBySet) ∧
      ((resolveValue api e q.keys).1 = JSValue.undefined ∨
        ∃ n, (resolveValue api e q.keys).1 = JSValue.number n) ∧
      setNameOf "Wall" "negative" "Volume" = "Wall with negative Volume" := by
  refine ⟨?_, ?_, ?_, ?_, ?_, by decide⟩
  · intro h
    have hs : statusOf (resolveValue api e q.keys).1 = some "zero" := by simp [statusOf, h]
    rw [evalProperty_groups, hs]
    simp only
    rw [setNameOf_eq]
    exact appendedTo_push _ _ _
  · intro h
    have h0 : (resolveValue api e q.keys).1.strictEqZero = false := by
      cases hv : (resolveValue api e q.keys).1 with
      | undefined => rfl
      | null => rfl
      | number n =>
        rw [hv] at h
        cases n with
        | finite m x =>
          simp only [JSValue.ltZero, JSNumber.isNegative, decide_eq_true_eq] at h
          simp only [JSValue.strictEqZero, JSNumber.isZero, decide_eq_false_iff_not]
          omega
        | nan => rfl
        | posInf => rfl
        | negInf => rfl
    have hs : statusOf (resolveValue api e q.keys).1 = some "negative" := by
      simp [statusOf, h, h0]
    rw [evalProperty_groups, hs]
    simp only
    rw [setNameOf_eq]
    exact appendedTo_push _ _ _
  · intro h
    have hs : statusOf (resolveValue api e q.keys).1 = some "undefined" := by
      rw [h]
      rfl
    rw [evalProperty_groups, hs]
    simp only
    rw [setNameOf_eq]
    exact appendedTo_push _ _ _
  · intro n hn hz hneg
    have hs : statusOf (resolveValue api e q.keys).1 = none := by
      rw [hn]
      simp [statusOf, JSValue.strictEqZero, JSValue.ltZero, hz, hneg]
    rw [evalProperty_groups, hs]
  · have hne := resolveValue_ne_null api e q.keys
    cases hv : (resolveValue api e q.keys).1 with
    | undefined => exact Or.inl rfl
    | null => exact absurd hv hne
    | number n => exact Or.inr ⟨n, rfl⟩

/-- Witness of C1 on the wall model, from the empty state: wall `1` (volume
`0`) goes to `Wall with zero Volume`, wall `3` (volume `-3`) to
`Wall with negative Volume`, the slab `4` (no volume) to
`Wall with undefined Volume`, and wall `2` (volume `12.5`) to no group. -/
theorem classification_and_group_name_witness :
    AppendedTo []
        (evalProperty wallModel "Wall" 1 "id1" ⟨[], [], []⟩
          ⟨["Qto_WallBaseQuantities.NetVolume", "Volume"], "Volume"⟩).elementIdsBySet
        "Wall with zero Volume" "id1" ∧
      AppendedTo []
        (evalProperty wallModel "Wall" 3 "id3" ⟨[], [], []⟩
          ⟨["Qto_WallBaseQuantities.NetVolume", "Volume"], "Volume"⟩).elementIdsBySet
        "Wall with negative Volume" "id3" ∧
      AppendedTo []
        (evalProperty wallModel "Wall" 4 "id4" ⟨[], [], []⟩
          ⟨["Qto_WallBaseQuantities.NetVolume", "Volume"], "Volume"⟩).elementIdsBySet
        "Wall with undefined Volume" "id4" ∧
      (evalProperty wallModel "Wall" 2 "id2" ⟨[], [], []⟩
          ⟨["Qto_WallBaseQuantities.NetVolume", "Volume"], "Volume"⟩).elementIdsBySet = [] :=
  ⟨(classification_and_group_name wallModel "Wall" 1
      ⟨["Qto_WallBaseQuantities.NetVolume", "Volume"], "Volume"⟩ ⟨[], [], []⟩).1 (by decide),
    (classification_and_group_name wallModel "Wall" 3
      ⟨["Qto_WallBaseQuantities.NetVolume", "Volume"], "Volume"⟩ ⟨[], [], []⟩).2.1 (by decide),
    (classification_and_group_name wallModel "Wall" 4
      ⟨["Qto_WallBaseQuantities.NetVolume", "Volume"], "Volume"⟩ ⟨[], [], []⟩).2.2.1
        (by decide),
    (classification_and_group_name wallModel "Wall" 2
      ⟨["Qto_WallBaseQuantities.NetVolume", "Volume"], "Volume"⟩ ⟨[], [], []⟩).2.2.2.1
        (JSNumber.finite 25 (-1)) (by decide) (by decide) (by decide)⟩

/-! ### Key fallback -/

/-- C2: for an element and a list of keys, the double-typed queries issued are
the keys of the shortest prefix ending at the first key with a defined value
(all keys when none is defined), the resolved value is that first defined
value or absent, a defined first key is the only one queried, and the
double-typed queries of a whole run are these queries for each matched element
and each quantity, in program order. -/
theorem key_fallback_short_circuits {ε : Type} (toLowerCase : String → String)
    (api : DesiteAPI ε) (host : HostState) (ifcPartial : String)
    (properties : List QuantitySpec) (e : ε) (ks : List String) :
    (resolveValue api e ks).2 =
        (queriedKeys api e ks).map (fun k => Call.getPropertyValue e k "xs:double") ∧
      (resolveValue api e ks).1 = firstDefinedValue api e ks ∧
      (∀ k rest, (api.getDouble e k).isDefined = true →
        (resolveValue api e (k :: rest)).2 = [Call.getPropertyValue e k "xs:double"] ∧
          (resolveValue api e (k :: rest)).1 = api.getDouble e k) ∧
      (checkBaseQuantitiesDynamic toLowerCase api host ifcPartial properties).calls.filter
          Call.isDoubleQuery =
        (discover toLowerCase api ifcPartial).1.flatMap (fun e => properties.flatMap (fun q =>
          (queriedKeys api e q.keys).map (fun k => Call.getPropertyValue e k "xs:double"))) := by
  refine ⟨resolveValue_snd api e ks, resolveValue_fst api e ks, ?_,
    run_doubleQueries toLowerCase api host ifcPartial properties⟩
  intro k rest hk
  rw [resolveValue_snd, resolveValue_fst]
  simp [queriedKeys, firstDefinedValue, List.findIdx_cons, List.find?_cons, hk]

/-- Witness of C2 on the wall model: wall `1` has its volume under the first
key, so only that key is queried and its value `0` is the resolved value. -/
theorem key_fallback_short_circuits_witness :
    (wallModel.getDouble 1 "Qto_WallBaseQuantities.NetVolume").isDefined = true ∧
      (resolveValue wallModel 1 ["Qto_WallBaseQuantities.NetVolume", "Volume"]).2 =
        [Call.getPropertyValue 1 "Qto_WallBaseQuantities.NetVolume" "xs:double"] ∧
      (resolveValue wallModel 1 ["Qto_WallBaseQuantities.NetVolume", "Volume"]).1 =
        wallModel.getDouble 1 "Qto_WallBaseQuantities.NetVolume" :=
  ⟨by decide,
    (key_fallback_short_circuits asciiLower wallModel [] "Wall" wallSpecs 1 []).2.2.1
      "Qto_WallBaseQuantities.NetVolume" ["Volume"] (by decide)⟩

/-! ### Element filter -/

/-- C3: the filtered element list is the sublist, in the order of
`getAllElements("geometry")`, of the elements whose lower-cased `ifcType` or
lower-cased `ifcTypeObject` contains the lower-cased category name (an absent
type string counting as empty); so two models with the same elements and type
strings that agree after lower-casing, asked with category names that agree
after lower-casing, give the same filtered list. -/
theorem filtered_elements_spec {ε : Type} (toLowerCase : String → String)
    (h0 : toLowerCase "" = "") (api : DesiteAPI ε) (ifcPartial : String) :
    (discover toLowerCase api ifcPartial).1 =
        (api.getAllElements "geometry").filter
          (fun e => decide (SpecMatches toLowerCase api ifcPartial e)) ∧
      ∀ (api2 : DesiteAPI ε) (ifcPartial2 : String),
        api2.getAllElements "geometry" = api.getAllElements "geometry" →
        toLowerCase ifcPartial2 = toLowerCase ifcPartial →
        (∀ e, toLowerCase ((api2.getString e "ifcType").getD "") =
          toLowerCase ((api.getString e "ifcType").getD "")) →
        (∀ e, toLowerCase ((api2.getString e "ifcTypeObject").getD "") =
          toLowerCase ((api.getString e "ifcTypeObject").getD "")) →
        (discover toLowerCase api2 ifcPartial2).1 = (discover toLowerCase api ifcPartial).1 := by
  have key : ∀ (a : DesiteAPI ε) (c : String), (discover toLowerCase a c).1 =
      (a.getAllElements "geometry").filter (fun e => decide (SpecMatches toLowerCase a c e)) := by
    intro a c
    rw [discover_fst]
    apply List.filter_congr
    intro e _
    rw [Bool.eq_iff_iff, matchesPartial_iff toLowerCase h0, decide_eq_true_iff]
  refine ⟨key api ifcPartial, ?_⟩
  intro api2 ifcPartial2 hE hc h1 h2
  rw [key api2 ifcPartial2, key api ifcPartial, hE]
  apply List.filter_congr
  intro e _
  simp only [SpecMatches, hc, h1, h2]

/-- Witness of C3 on the wall model with ASCII lower-casing: asked for `WALL`
the filter keeps the three walls, and a lower-case model asked for `wall`
gives the same list. -/
theorem filtered_elements_spec_witness :
    asciiLower "" = "" ∧
      (discover asciiLower wallModel "WALL").1 =
        (wallModel.getAllElements "geometry").filter
          (fun e => decide (SpecMatches asciiLower wallModel "WALL" e)) ∧
      (discover asciiLower wallModel "WALL").1 = [1, 2, 3] ∧
      (discover asciiLower
        { wallModel with getString := fun e name =>
            (wallModel.getString e name).map asciiLower } "wall").1 =
        (discover asciiLower wallModel "WALL").1 :=
  ⟨by decide, (filtered_elements_spec asciiLower (by decide) wallModel "WALL").1, by decide,
    (filtered_elements_spec asciiLower (by decide) wallModel "WALL").2
      { wallModel with getString := fun e name => (wallModel.getString e name).map asciiLower }
      "wall" rfl (by decide) (by intro e; by_cases h : e = 4 <;> simp [wallModel, h] <;> decide)
      (by intro e; simp [wallModel])⟩

/-! ### No matching element -/

/-- C4: when no element matches the category the run returns `"noElements"`,
issues no `showElementsOnly` call and no double-typed query, creates no
selection set and leaves the host's selection sets as they were. -/
theorem no_elements_no_effects {ε : Type} (toLowerCase : String → String)
    (api : DesiteAPI ε) (host : HostState) (ifcPartial : String)
    (properties : List QuantitySpec)
    (h : ∀ e ∈ api.getAllElements "geometry",
      matchesPartial toLowerCase api ifcPartial e = false) :
    (checkBaseQuantitiesDynamic toLowerCase api host ifcPartial properties).result =
        "noElements" ∧
      (∀ c ∈ (checkBaseQuantitiesDynamic toLowerCase api host ifcPartial properties).calls,
        c.isShowElementsOnly = false ∧ c.isDoubleQuery = false ∧
          c.isCreateSelectionSet = false ∧ c.isAddToSelectionSet = false) ∧
      (checkBaseQuantitiesDynamic toLowerCase api host ifcPartial properties).host = host := by
  have hf : (discover toLowerCase api ifcPartial).1 = [] := by
    rw [discover_fst, List.filter_eq_nil_iff]
    intro e he
    simp [h e he]
  rw [run_noElements toLowerCase api host ifcPartial properties hf]
  refine ⟨rfl, ?_, rfl⟩
  intro c hc
  have := discover_calls_kind toLowerCase api ifcPartial c hc
  exact ⟨this.1, this.2.1, this.2.2.2.1, this.2.2.2.2⟩

/-- Witness of C4: the wall model has no door. -/
theorem no_elements_no_effects_witness :
    (∀ e ∈ wallModel.getAllElements "geometry",
      matchesPartial asciiLower wallModel "Door" e = false) ∧
    (checkBaseQuantitiesDynamic asciiLower wallModel [] "Door" wallSpecs).result =
      "noElements" ∧
    (checkBaseQuantitiesDynamic asciiLower wallModel [] "Door" wallSpecs).host = [] :=
  have h : ∀ e ∈ wallModel.getAllElements "geometry",
      matchesPartial asciiLower wallModel "Door" e = false := by decide
  ⟨h, (no_elements_no_effects asciiLower wallModel [] "Door" wallSpecs h).1,
    (no_elements_no_effects asciiLower wallModel [] "Door" wallSpecs h).2.2⟩

/-! ### All quantities positive -/

/-- C5: when at least one element matches and every matched element resolves
every quantity to a positive number, the run returns `"allOk"`, issues no
`createSelectionSet` or `addToSelectionSetGeometry` call and leaves the host's
selection sets as they were. -/
theorem all_positive_all_ok {ε : Type} (toLowerCase : String → String)
    (api : DesiteAPI ε) (host : HostState) (ifcPartial : String)
    (properties : List QuantitySpec)
    (hm : (discover toLowerCase api ifcPartial).1 ≠ [])
    (hpos : ∀ e ∈ (discover toLowerCase api ifcPartial).1, ∀ q ∈ properties,
      IsPositive (resolveValue api e q.keys).1) :
    (checkBaseQuantitiesDynamic toLowerCase api host ifcPartial properties).result = "allOk" ∧
      (∀ c ∈ (checkBaseQuantitiesDynamic toLowerCase api host ifcPartial properties).calls,
        c.isCreateSelectionSet = false ∧ c.isAddToSelectionSet = false) ∧
      (checkBaseQuantitiesDynamic toLowerCase api host ifcPartial properties).host = host := by
  have ha : appendsOf api ifcPartial properties (discover toLowerCase api ifcPartial).1 = [] :=
    (appendsOf_eq_nil_iff _ _ _ _).2
      (fun e he q hq => not_isIssue_of_isPositive _ (hpos e he q hq))
  rw [run_allOk toLowerCase api host ifcPartial properties hm ha]
  refine ⟨rfl, ?_, rfl⟩
  intro c hc
  simp only [List.mem_append, List.mem_singleton] at hc
  rcases hc with (hc | rfl) | hc
  · have := discover_calls_kind toLowerCase api ifcPartial c hc
    exact ⟨this.2.2.2.1, this.2.2.2.2⟩
  · exact ⟨rfl, rfl⟩
  · exact (evaluationCalls_kind api properties _ c hc).2

/-- Witness of C5: every wall of the wall model has the positive length `5`,
and with an empty list of quantities the hypothesis holds vacuously. -/
theorem all_positive_all_ok_witness :
    (discover asciiLower wallModel "Wall").1 ≠ [] ∧
      (∀ e ∈ (discover asciiLower wallModel "Wall").1, ∀ q ∈ lengthSpecs,
        IsPositive (resolveValue wallModel e q.keys).1) ∧
      (checkBaseQuantitiesDynamic asciiLower wallModel [] "Wall" lengthSpecs).result = "allOk" ∧
      (checkBaseQuantitiesDynamic asciiLower wallModel [] "Wall" lengthSpecs).host = [] ∧
      (checkBaseQuantitiesDynamic asciiLower wallModel [] "Wall" []).result = "allOk" :=
  have h1 : (discover asciiLower wallModel "Wall").1 ≠ [] := by decide
  have h2 : ∀ e ∈ (discover asciiLower wallModel "Wall").1, ∀ q ∈ lengthSpecs,
      IsPositive (resolveValue wallModel e q.keys).1 := by
    intro e he q hq
    have he2 : e ∈ [1, 2, 3] := he
    simp only [lengthSpecs, List.mem_singleton] at hq
    subst hq
    exact ⟨JSNumber.finite 5 0, by
      simp only [List.mem_cons, List.mem_singleton, List.not_mem_nil, or_false] at he2
      rcases he2 with rfl | rfl | rfl <;> decide, by decide⟩
  ⟨h1, h2, (all_positive_all_ok asciiLower wallModel [] "Wall" lengthSpecs h1 h2).1,
    (all_positive_all_ok asciiLower wallModel [] "Wall" lengthSpecs h1 h2).2.2,
    (all_positive_all_ok asciiLower wallModel [] "Wall" [] h1
      (fun _ _ _ hq => absurd hq (List.not_mem_nil _))).1⟩

/-! ### The outcome -/

/-- C6: the result is one of `"noElements"`, `"allOk"`, `"issuesFound"`; it is
`"issuesFound"` exactly when some element matches and some matched element and
quantity resolve to `0`, a negative number or nothing; it is `"allOk"` exactly
when some element matches and no such pair exists. -/
theorem outcome_characterisation {ε : Type} (toLowerCase : String → String)
    (api : DesiteAPI ε) (host : HostState) (ifcPartial : String)
    (properties : List QuantitySpec) :
    ((checkBaseQuantitiesDynamic toLowerCase api host ifcPartial properties).result =
          "noElements" ∨
        (checkBaseQuantitiesDynamic toLowerCase api host ifcPartial properties).result =
          "allOk" ∨
        (checkBaseQuantitiesDynamic toLowerCase api host ifcPartial properties).result =
          "issuesFound") ∧
      ((checkBaseQuantitiesDynamic toLowerCase api host ifcPartial properties).result =
          "issuesFound" ↔
        (discover toLowerCase api ifcPartial).1 ≠ [] ∧
          ∃ e ∈ (discover toLowerCase api ifcPartial).1, ∃ q ∈ properties,
            IsIssue (resolveValue api e q.keys).1) ∧
      ((checkBaseQuantitiesDynamic toLowerCase api host ifcPartial properties).result =
          "allOk" ↔
        (discover toLowerCase api ifcPartial).1 ≠ [] ∧
          ¬ ∃ e ∈ (discover toLowerCase api ifcPartial).1, ∃ q ∈ properties,
            IsIssue (resolveValue api e q.keys).1) := by
  have hiff := appendsOf_eq_nil_iff api ifcPartial properties
    (discover toLowerCase api ifcPartial).1
  have hex : (∃ e ∈ (discover toLowerCase api ifcPartial).1, ∃ q ∈ properties,
      IsIssue (resolveValue api e q.keys).1) ↔
      appendsOf api ifcPartial properties (discover toLowerCase api ifcPartial).1 ≠ [] := by
    rw [Ne, hiff]
    push_neg
    rfl
  rw [hex]
  rcases run_cases toLowerCase api host ifcPartial properties with ⟨h, hr⟩ | ⟨h, ha, hr⟩ |
    ⟨h, ha, hr⟩
  · rw [hr]
    simp [h]
  · rw [hr]
    simp [h, ha]
  · rw [hr]
    simp [h, ha]

/-! ### Creation of the selection sets -/

/-- C7: a run that returns `"issuesFound"` issues, after the discovery, the
`showElementsOnly` and the evaluation calls (none of which touches a selection
set), one `createSelectionSet` per distinct group name in order of first
occurrence among the pushes (elements in filtered order, quantities in list
order), each directly followed by an `addToSelectionSetGeometry` on the handle
of the set just created with the identifiers pushed under that name, in push
order, joined with `;`; the host gains exactly these sets. -/
theorem selection_sets_created_in_order {ε : Type} (toLowerCase : String → String)
    (api : DesiteAPI ε) (host : HostState) (ifcPartial : String)
    (properties : List QuantitySpec)
    (h : (checkBaseQuantitiesDynamic toLowerCase api host ifcPartial properties).result =
      "issuesFound") :
    (checkBaseQuantitiesDynamic toLowerCase api host ifcPartial properties).calls =
        (discover toLowerCase api ifcPartial).2 ++
          [Call.showElementsOnly (discover toLowerCase api ifcPartial).1] ++
          evaluationCalls api properties (discover toLowerCase api ifcPartial).1 ++
          ((firstOccurrences ((appendsOf api ifcPartial properties
              (discover toLowerCase api ifcPartial).1).map Prod.fst)).enumFrom
            host.length).flatMap
            (fun hn => [Call.createSelectionSet hn.2,
              Call.addToSelectionSetGeometry hn.1
                (join (idsFor (appendsOf api ifcPartial properties
                  (discover toLowerCase api ifcPartial).1) hn.2) ";")]) ∧
      (∀ c ∈ (discover toLowerCase api ifcPartial).2 ++
          [Call.showElementsOnly (discover toLowerCase api ifcPartial).1] ++
          evaluationCalls api properties (discover toLowerCase api ifcPartial).1,
        c.isCreateSelectionSet = false ∧ c.isAddToSelectionSet = false) ∧
      (checkBaseQuantitiesDynamic toLowerCase api host ifcPartial properties).host =
        host ++ (firstOccurrences ((appendsOf api ifcPartial properties
            (discover toLowerCase api ifcPartial).1).map Prod.fst)).map
          (fun n => { name := n, geometry := [join (idsFor (appendsOf api ifcPartial properties
            (discover toLowerCase api ifcPartial).1) n) ";"] }) := by
  have hkind : ∀ c ∈ (discover toLowerCase api ifcPartial).2 ++
      [Call.showElementsOnly (discover toLowerCase api ifcPartial).1] ++
      evaluationCalls api properties (discover toLowerCase api ifcPartial).1,
      c.isCreateSelectionSet = false ∧ c.isAddToSelectionSet = false := by
    intro c hc
    simp only [List.mem_append, List.mem_singleton] at hc
    rcases hc with (hc | rfl) | hc
    · have := discover_calls_kind toLowerCase api ifcPartial c hc
      exact ⟨this.2.2.2.1, this.2.2.2.2⟩
    · exact ⟨rfl, rfl⟩
    · exact (evaluationCalls_kind api properties _ c hc).2
  rcases run_cases toLowerCase api host ifcPartial properties with ⟨_, hr⟩ | ⟨_, _, hr⟩ |
    ⟨_, _, hr⟩
  · rw [hr] at h
    simp at h
  · rw [hr] at h
    simp at h
  · rw [hr]
    exact ⟨by rw [creationCalls_groupsOf], hkind, by rw [createdSets_groupsOf]⟩

/-- Witness of C7, the end-to-end scenario: three walls whose volumes resolve
to `0`, `12.5` and `-3` give the set `Wall with zero Volume` holding the
identifier of wall `1` and then the set `Wall with negative Volume` holding
the identifier of wall `3`. -/
theorem selection_sets_created_in_order_witness :
    (checkBaseQuantitiesDynamic asciiLower wallModel [] "Wall" wallSpecs).result =
        "issuesFound" ∧
      (checkBaseQuantitiesDynamic asciiLower wallModel [] "Wall" wallSpecs).host =
        [] ++ (firstOccurrences ((appendsOf wallModel "Wall" wallSpecs
            (discover asciiLower wallModel "Wall").1).map Prod.fst)).map
          (fun n => { name := n, geometry := [join (idsFor (appendsOf wallModel "Wall" wallSpecs
            (discover asciiLower wallModel "Wall").1) n) ";"] }) ∧
      (checkBaseQuantitiesDynamic asciiLower wallModel [] "Wall" wallSpecs).host =
        [{ name := "Wall with zero Volume", geometry := ["id1"] },
          { name := "Wall with negative Volume", geometry := ["id3"] }] ∧
      (checkBaseQuantitiesDynamic asciiLower wallModel [] "Wall" wallSpecs).calls.filter
          (fun c => c.isShowElementsOnly || c.isCreateSelectionSet || c.isAddToSelectionSet) =
        [Call.showElementsOnly [1, 2, 3],
          Call.createSelectionSet "Wall with zero Volume",
          Call.addToSelectionSetGeometry 0 "id1",
          Call.createSelectionSet "Wall with negative Volume",
          Call.addToSelectionSetGeometry 1 "id3"] :=
  ⟨by decide,
    (selection_sets_created_in_order asciiLower wallModel [] "Wall" wallSpecs (by decide)).2.2,
    by decide, by decide⟩

/-! ### Visibility restriction -/

/-- C8: when at least one element matches, the calls of the run are the
discovery calls, then one `showElementsOnly` with the filtered list, then the
rest; the discovery calls contain no `showElementsOnly`, no double-typed query,
no `idListToStr` and no selection-set call, and the rest contains no
`showElementsOnly`; the result is `"allOk"` or `"issuesFound"`. -/
theorem show_once_before_evaluation {ε : Type} (toLowerCase : String → String)
    (api : DesiteAPI ε) (host : HostState) (ifcPartial : String)
    (properties : List QuantitySpec)
    (hm : (discover toLowerCase api ifcPartial).1 ≠ []) :
    (∃ later,
        (checkBaseQuantitiesDynamic toLowerCase api host ifcPartial properties).calls =
          (discover toLowerCase api ifcPartial).2 ++
            Call.showElementsOnly (discover toLowerCase api ifcPartial).1 :: later ∧
        ∀ c ∈ later, c.isShowElementsOnly = false) ∧
      (∀ c ∈ (discover toLowerCase api ifcPartial).2,
        c.isShowElementsOnly = false ∧ c.isDoubleQuery = false ∧ c.isIdListToStr = false ∧
          c.isCreateSelectionSet = false ∧ c.isAddToSelectionSet = false) ∧
      (checkBaseQuantitiesDynamic toLowerCase api host ifcPartial properties).calls.filter
          Call.isShowElementsOnly =
        [Call.showElementsOnly (discover toLowerCase api ifcPartial).1] ∧
      ((checkBaseQuantitiesDynamic toLowerCase api host ifcPartial properties).result =
          "allOk" ∨
        (checkBaseQuantitiesDynamic toLowerCase api host ifcPartial properties).result =
          "issuesFound") := by
  have hd := discover_calls_kind toLowerCase api ifcPartial
  have hdf := filter_eq_nil_of_forall Call.isShowElementsOnly _ (fun c hc => (hd c hc).1)
  have hef := filter_eq_nil_of_forall Call.isShowElementsOnly _
    (fun c hc => (evaluationCalls_kind api properties
      (discover toLowerCase api ifcPartial).1 c hc).1)
  rcases run_cases toLowerCase api host ifcPartial properties with ⟨h, _⟩ | ⟨_, _, hr⟩ |
    ⟨_, _, hr⟩
  · exact absurd h hm
  · rw [hr]
    refine ⟨⟨evaluationCalls api properties (discover toLowerCase api ifcPartial).1, ?_, ?_⟩,
      hd, ?_, Or.inl rfl⟩
    · simp
    · exact fun c hc => (evaluationCalls_kind api properties _ c hc).1
    · simp [List.filter_append, hdf, hef, List.filter_cons, Call.isShowElementsOnly]
  · rw [hr]
    have hcf := filter_eq_nil_of_forall Call.isShowElementsOnly _
      (fun c hc => (@creationCalls_kind ε host.length (groupsOf (appendsOf api ifcPartial
        properties (discover toLowerCase api ifcPartial).1)) c hc).1)
    refine ⟨⟨evaluationCalls api properties (discover toLowerCase api ifcPartial).1 ++
      creationCalls host.length (groupsOf (appendsOf api ifcPartial properties
        (discover toLowerCase api ifcPartial).1)), ?_, ?_⟩, hd, ?_, Or.inr rfl⟩
    · simp
    · intro c hc
      rcases List.mem_append.1 hc with hc | hc
      · exact (evaluationCalls_kind api properties _ c hc).1
      · exact (creationCalls_kind _ _ c hc).1
    · simp [List.filter_append, hdf, hef, hcf, List.filter_cons, Call.isShowElementsOnly]

/-- Witness of C8: the wall model has three walls, and the single
`showElementsOnly` call carries them. -/
theorem show_once_before_evaluation_witness :
    (discover asciiLower wallModel "Wall").1 ≠ [] ∧
      (checkBaseQuantitiesDynamic asciiLower wallModel [] "Wall" wallSpecs).calls.filter
          Call.isShowElementsOnly = [Call.showElementsOnly [1, 2, 3]] :=
  ⟨by decide,
    (show_once_before_evaluation asciiLower wallModel [] "Wall" wallSpecs (by decide)).2.2.1⟩

/-! ### Identifiers within a group -/

/-- C9, as amended: when the matched elements have pairwise distinct
identifier strings and the quantities have pairwise distinct display names, no
group of `elementIdsBySet` holds the same identifier twice. -/
theorem group_ids_nodup {ε : Type} (toLowerCase : String → String) (api : DesiteAPI ε)
    (ifcPartial : String) (properties : List QuantitySpec) (calls : List (Call ε))
    (hids : ((discover toLowerCase api ifcPartial).1.map api.idListToStr).Nodup)
    (hnames : (properties.map QuantitySpec.displayName).Nodup) :
    ∀ g ∈ (evaluate api ifcPartial properties (discover toLowerCase api ifcPartial).1
      calls).elementIdsBySet, g.2.Nodup := by
  intro g hg
  rw [evaluate_eq] at hg
  obtain ⟨n, _, rfl⟩ := List.mem_map.1 hg
  exact idsFor_appendsOf_nodup api ifcPartial properties hnames _ hids n

/-- Witness of the amended C9 on the wall model: three walls with distinct
identifiers, one quantity. -/
theorem group_ids_nodup_witness :
    ((discover asciiLower wallModel "Wall").1.map wallModel.idListToStr).Nodup ∧
      (wallSpecs.map QuantitySpec.displayName).Nodup ∧
      ∀ g ∈ (evaluate wallModel "Wall" wallSpecs (discover asciiLower wallModel "Wall").1
        []).elementIdsBySet, g.2.Nodup :=
  ⟨by decide, by decide,
    group_ids_nodup asciiLower wallModel "Wall" wallSpecs [] (by decide) (by decide)⟩

/-- Counterexample to C9 as stated: the three walls have distinct identifiers,
yet with two quantities sharing the display name `Volume`, both absent, every
wall is pushed twice onto `Wall with undefined Volume`. -/
theorem group_ids_duplicate_counterexample :
    ((discover asciiLower wallModel "Wall").1.map wallModel.idListToStr).Nodup ∧
      (evaluate wallModel "Wall" sharedNameSpecs (discover asciiLower wallModel "Wall").1
        []).elementIdsBySet =
        [("Wall with undefined Volume", ["id1", "id1", "id2", "id2", "id3", "id3"])] ∧
      ¬ ∀ g ∈ (evaluate wallModel "Wall" sharedNameSpecs (discover asciiLower wallModel "Wall").1
        []).elementIdsBySet, g.2.Nodup := by
  refine ⟨by decide, by decide, ?_⟩
  intro h
  exact absurd (h ("Wall with undefined Volume", ["id1", "id1", "id2", "id2", "id3", "id3"])
    (by decide)) (by decide)

/-! ### Repeated runs -/

/-- C10: a run that returns `"issuesFound"`, repeated on the host state it
left, returns `"issuesFound"` again and appends the same selection sets (name
and joined identifiers) a second time, so that each created name occurs twice
among the created sets. -/
theorem second_run_duplicates_sets {ε : Type} (toLowerCase : String → String)
    (api : DesiteAPI ε) (host : HostState) (ifcPartial : String)
    (properties : List QuantitySpec)
    (h : (checkBaseQuantitiesDynamic toLowerCase api host ifcPartial properties).result =
      "issuesFound") :
    (checkBaseQuantitiesDynamic toLowerCase api
        (checkBaseQuantitiesDynamic toLowerCase api host ifcPartial properties).host
        ifcPartial properties).result = "issuesFound" ∧
      ∃ created : List SelectionSet, created ≠ [] ∧
        (checkBaseQuantitiesDynamic toLowerCase api host ifcPartial properties).host =
          host ++ created ∧
        (checkBaseQuantitiesDynamic toLowerCase api
          (checkBaseQuantitiesDynamic toLowerCase api host ifcPartial properties).host
          ifcPartial properties).host = host ++ created ++ created ∧
        ∀ s ∈ created, ((created ++ created).map SelectionSet.name).count s.name = 2 := by
  rcases run_cases toLowerCase api host ifcPartial properties with ⟨_, hr⟩ | ⟨_, _, hr⟩ |
    ⟨hm, ha, hr⟩
  · rw [hr] at h
    simp at h
  · rw [hr] at h
    simp at h
  · rw [hr]
    simp only
    rw [run_issuesFound toLowerCase api _ ifcPartial properties hm ha]
    refine ⟨rfl, _, ?_, rfl, rfl, ?_⟩
    · rw [createdSets_groupsOf, Ne, List.map_eq_nil_iff, firstOccurrences_eq_nil,
        List.map_eq_nil_iff]
      exact ha
    · intro s hs
      have hnames : (createdSets (groupsOf (appendsOf api ifcPartial properties
          (discover toLowerCase api ifcPartial).1))).map SelectionSet.name =
          firstOccurrences ((appendsOf api ifcPartial properties
            (discover toLowerCase api ifcPartial).1).map Prod.fst) := by
        rw [createdSets_groupsOf, List.map_map]
        simp [Function.comp_def]
      rw [List.map_append, List.count_append, hnames]
      have hmem : s.name ∈ firstOccurrences ((appendsOf api ifcPartial properties
          (discover toLowerCase api ifcPartial).1).map Prod.fst) := by
        rw [← hnames]
        exact List.mem_map_of_mem _ hs
      rw [List.count_eq_one_of_mem (nodup_firstOccurrences _) hmem]

/-- Witness of C10 on the wall model: after two runs the host holds each of
the two sets twice. -/
theorem second_run_duplicates_sets_witness :
    (checkBaseQuantitiesDynamic asciiLower wallModel [] "Wall" wallSpecs).result =
        "issuesFound" ∧
      (checkBaseQuantitiesDynamic asciiLower wallModel
        (checkBaseQuantitiesDynamic asciiLower wallModel [] "Wall" wallSpecs).host
        "Wall" wallSpecs).result = "issuesFound" ∧
      (checkBaseQuantitiesDynamic asciiLower wallModel
        (checkBaseQuantitiesDynamic asciiLower wallModel [] "Wall" wallSpecs).host
        "Wall" wallSpecs).host =
        [{ name := "Wall with zero Volume", geometry := ["id1"] },
          { name := "Wall with negative Volume", geometry := ["id3"] },
          { name := "Wall with zero Volume", geometry := ["id1"] },
          { name := "Wall with negative Volume", geometry := ["id3"] }] :=
  ⟨by decide,
    (second_run_duplicates_sets asciiLower wallModel [] "Wall" wallSpecs (by decide)).1,
    by decide⟩

end BaseQuantityCheck
